import Mathlib

/-
Verification of the github-archive tool (src/github_archive/archive.py)
against its natural-language specification.

The Python source is shallowly embedded: the filesystem is the set of
existing paths (a path is its list of components), the git subprocess is
an oracle (its exit outcome and the filesystem state it leaves behind are
parameters), and the semaphore-bounded thread pool is a small-step
transition system.  Definitions keep the source names where Lean allows.
-/

namespace GithubArchive

/-- A filesystem path, as its list of components (os.path.join concatenates). -/
abbrev Path := List String

/-- The filesystem, modelled as the list of paths that currently exist. -/
abbrev FS := List Path

/-- os.path.exists: the path is present in the filesystem. -/
def pathExists (fs : FS) (p : Path) : Bool :=
  decide (p ∈ fs)

/-- shutil.rmtree: recursively delete the tree rooted at p, i.e. remove
every existing path of which p is a path-component prefix. -/
def rmtree (fs : FS) (p : Path) : FS :=
  fs.filter (fun q => !(decide (p <+: q)))

/-- All nonempty component-prefixes of a path: the directories that
os.makedirs creates (intermediate directories included). -/
def pathAncestors : Path → List Path
  | [] => []
  | c :: rest => [c] :: (pathAncestors rest).map (fun q => c :: q)

/-- Add each of the given paths to the filesystem when not yet present. -/
def addMissing (fs : FS) (qs : List Path) : FS :=
  qs.foldl (fun acc q => if q ∈ acc then acc else acc ++ [q]) fs

/-- os.makedirs: create the directory and all its missing ancestors. -/
def mkdirs (fs : FS) (p : Path) : FS :=
  addMissing fs (pathAncestors p)

/-- The two git operations passed to archive_repo / archive_gist
(the source represents them as the strings CLONE_OPERATION = clone and
PULL_OPERATION = pull; only these two values reach the executor). -/
inductive Operation
  | clone
  | pull
deriving DecidableEq, Repr

/-- Outcome of the subprocess.run call: normal zero exit, TimeoutExpired,
or CalledProcessError (nonzero exit under check=True). -/
inductive RunResult
  | success
  | timeout
  | failure
deriving DecidableEq, Repr

/-- Events emitted by one archive_repo / archive_gist call:
thread_limiter.acquire(), the subprocess.run invocation, and
thread_limiter.release(). -/
inductive Event
  | acquire
  | runGit
  | release
deriving DecidableEq, Repr

/-- archive_repo (archive.py lines 265-297).  The subprocess is an oracle:
outcome is how subprocess.run ended, and fsAfterRun is the filesystem
state the child process left behind (arbitrary partial work).  Returns the
final filesystem together with the trace of acquire / run / release
events on that code path. -/
def archive_repo (fs : FS) (repo_path : Path) (operation : Operation)
    (outcome : RunResult) (fsAfterRun : FS) : FS × List Event :=
  if pathExists fs repo_path = true ∧ operation = Operation.clone then
    (fs, [])
  else
    match outcome with
    | RunResult.success =>
        (fsAfterRun, [Event.acquire, Event.runGit, Event.release])
    | RunResult.timeout =>
        (if pathExists fsAfterRun repo_path = true then rmtree fsAfterRun repo_path
         else fsAfterRun,
         [Event.acquire, Event.runGit, Event.release])
    | RunResult.failure =>
        (if pathExists fsAfterRun repo_path = true then rmtree fsAfterRun repo_path
         else fsAfterRun,
         [Event.acquire, Event.runGit, Event.release])

/-- archive_gist (archive.py lines 299-331); textually the same control
flow as archive_repo, duplicated in the source. -/
def archive_gist (fs : FS) (gist_path : Path) (operation : Operation)
    (outcome : RunResult) (fsAfterRun : FS) : FS × List Event :=
  if pathExists fs gist_path = true ∧ operation = Operation.clone then
    (fs, [])
  else
    match outcome with
    | RunResult.success =>
        (fsAfterRun, [Event.acquire, Event.runGit, Event.release])
    | RunResult.timeout =>
        (if pathExists fsAfterRun gist_path = true then rmtree fsAfterRun gist_path
         else fsAfterRun,
         [Event.acquire, Event.runGit, Event.release])
    | RunResult.failure =>
        (if pathExists fsAfterRun gist_path = true then rmtree fsAfterRun gist_path
         else fsAfterRun,
         [Event.acquire, Event.runGit, Event.release])

/-- The owner field of a repository descriptor returned by the forge client. -/
structure Owner where
  login : String
deriving DecidableEq, Repr

/-- A repository descriptor as used by the source (repo.owner.login,
repo.name, repo.ssh_url). -/
structure Repo where
  owner : Owner
  name : String
  ssh_url : String
deriving DecidableEq, Repr

/-- A gist descriptor as used by the source (gist.id, gist.html_url). -/
structure Gist where
  id : String
  html_url : String
deriving DecidableEq, Repr

/-- Context string constants of archive.py lines 14-18. -/
def CLONE_OPERATION : String := "clone"

def ORG_CONTEXT : String := "orgs"

def PERSONAL_CONTEXT : String := "personal"

def PULL_OPERATION : String := "pull"

def USER_CONTEXT : String := "user"

/-- Python str.lower, embedded as charwise lowering over the character
list of the string (equivalently String.toLower, which maps Char.toLower
over the characters; defined on the list so that the kernel can evaluate
it on concrete inputs). -/
def lower (s : String) : String :=
  String.mk (s.data.map Char.toLower)

/-- Splitting a character list at every occurrence of a separator, with
Python str.split semantics: no collapsing of adjacent separators, and the
empty list yields one empty field. -/
def splitOnChar (sep : Char) : List Char → List (List Char)
  | [] => [[]]
  | c :: rest =>
      let r := splitOnChar sep rest
      if c = sep then [] :: r
      else
        match r with
        | [] => [[c]]
        | g :: gs => (c :: g) :: gs

/-- Python str.split with a one-character separator. -/
def split (s : String) (sep : Char) : List String :=
  (splitOnChar sep s.data).map String.mk

/-- Parsing of a comma-separated name list in the constructor
(archive.py lines 39-41): `users.lower().split(",") if users else ""`.
A missing or empty option is the falsy sentinel, represented here as the
empty list (the sentinel is only ever tested for truthiness or iterated,
and both agree with the empty list). -/
def parseNameList : Option String → List String
  | none => []
  | some s => if s.data.isEmpty then [] else split (lower s) ','

/-- The stored authenticated username (archive.py line 49):
`self.authenticated_user.login.lower() if self.token else None`. -/
def authenticated_username (token : Option String) (login : String) : Option String :=
  if token.isSome then some (lower login) else none

/-- The configuration-validation part of initialize_project
(archive.py lines 137-144): returns the fatal error message, if any. -/
def initialize_project_error (users orgs gists : List String)
    (view clone pull : Bool) : Option String :=
  if ((!users.isEmpty || !orgs.isEmpty || !gists.isEmpty) && !(view || clone || pull)) = true then
    some "A git operation must be specified when a list of users or orgs is provided."
  else if ((users.isEmpty && orgs.isEmpty && gists.isEmpty) && (view || clone || pull)) = true then
    some "A list must be provided when a git operation is specified."
  else none

/-- initialize_project (archive.py lines 126-144), sequentially faithful:
first the root directory (with its repos and gists subdirectories) is
created when absent (lines 133-135), and only then is the configuration
validated (lines 137-144).  Returns the filesystem after the call together
with the raised error, if any. -/
def initialize_project (fs : FS) (location : Path) (users orgs gists : List String)
    (view clone pull : Bool) : FS × Option String :=
  let fs1 :=
    if pathExists fs location = true then fs
    else mkdirs (mkdirs fs (location ++ ["repos"])) (location ++ ["gists"])
  (fs1, initialize_project_error users orgs gists view clone pull)

/-- The owner-filter guard of iterate_repos_to_archive (archive.py line 214):
`self.token and repo_owner_username != self.authenticated_username and
context == PERSONAL_CONTEXT`, where repo_owner_username is the lowercased
owner login (line 205) and authUsername is the stored lowercased
authenticated login.  A repo for which the guard holds is skipped. -/
def ownerGuardSkips (hasToken : Bool) (authUsername : String) (context : String)
    (repo : Repo) : Bool :=
  hasToken && (lower repo.owner.login != authUsername) && (context == PERSONAL_CONTEXT)

/-- The repos of one iterate_repos_to_archive call that are actually
archived (a thread is started for each, archive.py lines 204-228): those
the owner-filter guard does not skip, in their original order. -/
def processedRepos (hasToken : Bool) (authUsername : String) (context : String)
    (repos : List Repo) : List Repo :=
  repos.filter (fun repo => !(ownerGuardSkips hasToken authUsername context repo))

/-- The local path of a repo target (archive.py line 217):
os.path.join(location, "repos", repo_owner_username, repo.name) with
repo_owner_username = repo.owner.login.lower() (line 205). -/
def repo_local_path (location : Path) (repo : Repo) : Path :=
  location ++ ["repos", lower repo.owner.login, repo.name]

/-- The local path of a gist target (archive.py line 238):
os.path.join(location, "gists", gist.id). -/
def gist_local_path (location : Path) (gist : Gist) : Path :=
  location ++ ["gists", gist.id]

/-- Coordinator events: starting thread i, joining thread i (which by the
semantics of Thread.join completes only once thread i has terminated),
and the call returning to its caller. -/
inductive CoEvent
  | spawn (i : Nat)
  | join (i : Nat)
  | ret
deriving DecidableEq, Repr

/-- Event trace of iterate_repos_to_archive (archive.py lines 199-230):
the loop appends every non-skipped repo thread to thread_list and starts
it; afterwards every element of thread_list is joined; only then does the
call return.  Threads are identified by their position in thread_list. -/
def iterate_repos_trace (hasToken : Bool) (authUsername : String) (context : String)
    (repos : List Repo) : List CoEvent :=
  let n := (processedRepos hasToken authUsername context repos).length
  ((List.range n).map CoEvent.spawn) ++ ((List.range n).map CoEvent.join) ++ [CoEvent.ret]

/-- Event trace of iterate_gists_to_archive (archive.py lines 232-251):
identical shape, with no owner-filter guard (every gist gets a thread). -/
def iterate_gists_trace (gists : List Gist) : List CoEvent :=
  ((List.range gists.length).map CoEvent.spawn)
    ++ ((List.range gists.length).map CoEvent.join) ++ [CoEvent.ret]

/-- Phase of one archive task with respect to the semaphore: not yet
acquired, holding a permit, or finished (permit released). -/
inductive Phase
  | idle
  | acquired
  | done
deriving DecidableEq, Repr

/-- State of the BoundedSemaphore(self.threads) thread pool of one
iterate call: the number of available permits and the phase of each
started task.  Permits are an Int so that non-negativity is a proved
property of the transition guards, not of the representation. -/
structure PoolState where
  permits : Int
  phases : List Phase
deriving DecidableEq, Repr

/-- Initial pool state: all permits available, every task idle. -/
def initPool (threads : Nat) (n : Nat) : PoolState :=
  { permits := (threads : Int), phases := List.replicate n Phase.idle }

/-- One scheduler step: some idle task acquires a permit (blocking until
one is available, so only enabled when the count is positive), or some
permit-holding task releases it in its finally block and finishes.
These are the only operations the source performs on the semaphore
(archive.py lines 277 and 297, 311 and 331). -/
inductive PoolStep : PoolState → PoolState → Prop
  | acq (s : PoolState) (i : Nat) (h : s.phases.get? i = some Phase.idle)
      (hp : 0 < s.permits) :
      PoolStep s { permits := s.permits - 1, phases := s.phases.set i Phase.acquired }
  | rel (s : PoolState) (i : Nat) (h : s.phases.get? i = some Phase.acquired) :
      PoolStep s { permits := s.permits + 1, phases := s.phases.set i Phase.done }

/-- Reachability under any interleaving of pool steps. -/
inductive PoolReaches : PoolState → PoolState → Prop
  | refl (s : PoolState) : PoolReaches s s
  | tail (s t u : PoolState) : PoolReaches s t → PoolStep t u → PoolReaches s u

/-- Number of tasks currently holding a permit. -/
def acquiredCount (l : List Phase) : Nat :=
  l.countP (fun p => p == Phase.acquired)

/-- authenticated_user_in_users (archive.py lines 146-147):
`self.authenticated_user.login.lower() in self.users`. -/
def authenticated_user_in_users (login : String) (users : List String) : Bool :=
  decide (lower login ∈ users)

/-- Truthiness of the expression `self.authenticated_user_in_users` as it
appears in the run condition (archive.py line 59).  The source omits the
call parentheses, so the expression is the bound method object itself,
which Python considers truthy regardless of the users list. -/
def authenticated_user_in_users_truthy : Bool := true

/-- Python list.remove(x): remove the first occurrence of x, or raise
ValueError (modelled as none) when x is absent. -/
def list_remove (x : String) : List String → Option (List String)
  | [] => none
  | y :: ys => if y = x then some ys else (list_remove x ys).map (fun l => y :: l)

/-- The personal-repos block of run (archive.py lines 58-75).  Returns
whether the personal pass executed (the condition of line 59, with the
uncalled method reference modelled by its constant truthiness) and the
users list afterwards (none = the run crashed with ValueError at
`self.users.remove(self.authenticated_username)`, line 75). -/
def run_personal_pass (token : Option String) (authUsername : String)
    (users : List String) : Bool × Option (List String) :=
  if (token.isSome && authenticated_user_in_users_truthy && !users.isEmpty) = true then
    (true, list_remove authUsername users)
  else
    (false, some users)

lemma pathExists_rmtree_self (fs : FS) (p : Path) :
    pathExists (rmtree fs p) p = false := by
  simp [pathExists, rmtree, List.mem_filter]

lemma pathExists_rollback (fsAfter : FS) (p : Path) :
    pathExists (if pathExists fsAfter p = true then rmtree fsAfter p else fsAfter) p
      = false := by
  by_cases h : pathExists fsAfter p = true
  · simp [h, pathExists_rmtree_self]
  · simp [h]

lemma pathExists_iff (fs : FS) (p : Path) : pathExists fs p = true ↔ p ∈ fs := by
  simp [pathExists]

lemma mem_addMissing (fs : FS) (qs : List Path) (q : Path) :
    q ∈ addMissing fs qs ↔ q ∈ fs ∨ q ∈ qs := by
  induction qs generalizing fs with
  | nil => simp [addMissing]
  | cons a as ih =>
    by_cases ha : a ∈ fs
    · rw [show addMissing fs (a :: as) = addMissing fs as by simp [addMissing, ha]]
      rw [ih]
      constructor
      · rintro (hq | hq)
        · exact Or.inl hq
        · exact Or.inr (List.mem_cons_of_mem _ hq)
      · rintro (hq | hq)
        · exact Or.inl hq
        · rcases List.mem_cons.mp hq with rfl | hq
          · exact Or.inl ha
          · exact Or.inr hq
    · rw [show addMissing fs (a :: as) = addMissing (fs ++ [a]) as by
        simp [addMissing, ha]]
      rw [ih]
      simp [List.mem_append, List.mem_cons]
      tauto

lemma mem_pathAncestors_self_append (q s : Path) (h : q ≠ []) :
    q ∈ pathAncestors (q ++ s) := by
  induction q with
  | nil => exact absurd rfl h
  | cons c rest ih =>
    cases rest with
    | nil => simp [pathAncestors]
    | cons d rest2 =>
      have hmem : (d :: rest2) ∈ pathAncestors ((d :: rest2) ++ s) := ih (by simp)
      have hgoal : pathAncestors ((c :: d :: rest2) ++ s)
          = [c] :: (pathAncestors ((d :: rest2) ++ s)).map (fun q => c :: q) := rfl
      rw [hgoal]
      exact List.mem_cons_of_mem _ (List.mem_map.mpr ⟨d :: rest2, hmem, rfl⟩)

lemma acquiredCount_set_acquired (l : List Phase) (i : Nat)
    (h : l.get? i = some Phase.idle) :
    acquiredCount (l.set i Phase.acquired) = acquiredCount l + 1 := by
  induction l generalizing i with
  | nil => simp at h
  | cons a as ih =>
    cases i with
    | zero =>
      simp only [List.get?] at h
      injection h with h
      subst h
      simp [acquiredCount, List.countP_cons]
    | succ j =>
      simp only [List.get?] at h
      have := ih j h
      simp [acquiredCount, List.countP_cons] at this ⊢
      omega

lemma acquiredCount_set_done (l : List Phase) (i : Nat)
    (h : l.get? i = some Phase.acquired) :
    acquiredCount l = acquiredCount (l.set i Phase.done) + 1 := by
  induction l generalizing i with
  | nil => simp at h
  | cons a as ih =>
    cases i with
    | zero =>
      simp only [List.get?] at h
      injection h with h
      subst h
      simp [acquiredCount, List.countP_cons]
    | succ j =>
      simp only [List.get?] at h
      have := ih j h
      simp [acquiredCount, List.countP_cons] at this ⊢
      omega

lemma pool_invariant (threads n : Nat) (s : PoolState)
    (h : PoolReaches (initPool threads n) s) :
    0 ≤ s.permits ∧ s.permits + (acquiredCount s.phases : Int) = (threads : Int) := by
  induction h with
  | refl =>
    have hz : acquiredCount (List.replicate n Phase.idle) = 0 := by
      rw [acquiredCount, List.countP_eq_zero]
      intro a ha
      rw [List.eq_of_mem_replicate ha]
      simp
    refine ⟨Int.natCast_nonneg threads, ?_⟩
    show ((threads : Int)) + ((acquiredCount (List.replicate n Phase.idle) : Nat) : Int)
      = (threads : Int)
    rw [hz]
    simp
  | tail t u hst step ih =>
    obtain ⟨ih0, ih1⟩ := ih
    cases step with
    | acq i hph hp =>
      have hc := acquiredCount_set_acquired t.phases i hph
      refine ⟨by show 0 ≤ t.permits - 1; omega, ?_⟩
      show t.permits - 1 + ((acquiredCount (t.phases.set i Phase.acquired) : Nat) : Int)
        = (threads : Int)
      rw [hc]
      push_cast at ih1 ⊢
      omega
    | rel i hph =>
      have hc := acquiredCount_set_done t.phases i hph
      refine ⟨by show 0 ≤ t.permits + 1; omega, ?_⟩
      show t.permits + 1 + ((acquiredCount (t.phases.set i Phase.done) : Nat) : Int)
        = (threads : Int)
      rw [hc] at ih1
      push_cast at ih1 ⊢
      omega

/-- C1: the claim states that the personal-repos pass executes if and only
if the authenticated login is in the configured users list, and that the
login is removed from the list exactly in that case.  The source is a
slip: line 59 tests `self.authenticated_user_in_users` without calling it,
so the bound method object is always truthy and the personal pass runs
whenever a token is set and the users list is nonempty; line 75 then
crashes with ValueError when the login is absent from the list.  This
theorem exhibits the failing input: token set with authenticated login
alice and users = [bob], the membership test (the intended guard, lines
146-147) is false, yet the pass condition holds and the removal fails. -/
theorem c1_personal_pass_condition_bug :
    (run_personal_pass (some "sometoken") "alice" ["bob"]).1 = true
    ∧ authenticated_user_in_users "alice" ["bob"] = false
    ∧ (run_personal_pass (some "sometoken") "alice" ["bob"]).2 = none := by
  refine ⟨rfl, by decide, rfl⟩

/-- C2: for a target whose git subprocess actually runs (not the
clone-with-existing-path skip branch) and ends in a timeout or a nonzero
exit, the local path does not exist after archive_repo / archive_gist
returns: any partial directory is recursively deleted. -/
theorem c2_failed_git_rollback (fs : FS) (p : Path) (op : Operation)
    (outcome : RunResult) (fsAfter : FS)
    (hrun : pathExists fs p = false ∨ op = Operation.pull)
    (hfail : outcome = RunResult.timeout ∨ outcome = RunResult.failure) :
    pathExists (archive_repo fs p op outcome fsAfter).1 p = false
    ∧ pathExists (archive_gist fs p op outcome fsAfter).1 p = false := by
  have hcond : ¬ (pathExists fs p = true ∧ op = Operation.clone) := by
    rcases hrun with h | h
    · rintro ⟨h1, _⟩
      rw [h] at h1
      exact Bool.false_ne_true h1
    · rintro ⟨_, h2⟩
      rw [h] at h2
      cases h2
  constructor
  · unfold archive_repo
    rw [if_neg hcond]
    rcases hfail with rfl | rfl
    · exact pathExists_rollback fsAfter p
    · exact pathExists_rollback fsAfter p
  · unfold archive_gist
    rw [if_neg hcond]
    rcases hfail with rfl | rfl
    · exact pathExists_rollback fsAfter p
    · exact pathExists_rollback fsAfter p

theorem c2_failed_git_rollback_witness :
    pathExists (archive_repo [] ["archive", "repos", "bob", "r1"] Operation.clone
        RunResult.timeout [["archive", "repos", "bob", "r1"]]).1
      ["archive", "repos", "bob", "r1"] = false
    ∧ pathExists (archive_gist [] ["archive", "repos", "bob", "r1"] Operation.clone
        RunResult.timeout [["archive", "repos", "bob", "r1"]]).1
      ["archive", "repos", "bob", "r1"] = false :=
  c2_failed_git_rollback [] ["archive", "repos", "bob", "r1"] Operation.clone
    RunResult.timeout [["archive", "repos", "bob", "r1"]] (Or.inl (by decide)) (Or.inl rfl)

/-- C3: for a clone target whose local path already exists, archive_repo
and archive_gist return the filesystem unchanged with an empty event
trace: no semaphore acquisition and no subprocess invocation occur, so a
repeated clone-archive is a no-op. -/
theorem c3_clone_existing_noop (fs : FS) (p : Path) (outcome : RunResult) (fsAfter : FS)
    (h : pathExists fs p = true) :
    archive_repo fs p Operation.clone outcome fsAfter = (fs, [])
    ∧ archive_gist fs p Operation.clone outcome fsAfter = (fs, []) := by
  constructor
  · unfold archive_repo
    rw [if_pos ⟨h, rfl⟩]
  · unfold archive_gist
    rw [if_pos ⟨h, rfl⟩]

theorem c3_clone_existing_noop_witness :
    archive_repo [["x"]] ["x"] Operation.clone RunResult.success [] = ([["x"]], [])
    ∧ archive_gist [["x"]] ["x"] Operation.clone RunResult.success [] = ([["x"]], []) :=
  c3_clone_existing_noop [["x"]] ["x"] RunResult.success [] (by decide)

/-- C4: every code path of archive_repo / archive_gist emits as many
release events as acquire events (the acquire at the head of the try block
is matched by the release in the finally block on success, timeout and
failure alike; the skip branch touches neither), and across any
interleaving of acquire and release steps the available-permit count of
the pool stays between zero and the configured worker limit. -/
theorem c4_permit_balance_and_bounds :
    (∀ (fs : FS) (p : Path) (op : Operation) (outcome : RunResult) (fsAfter : FS),
        ((archive_repo fs p op outcome fsAfter).2.count Event.acquire
            = (archive_repo fs p op outcome fsAfter).2.count Event.release)
        ∧ ((archive_gist fs p op outcome fsAfter).2.count Event.acquire
            = (archive_gist fs p op outcome fsAfter).2.count Event.release))
    ∧ (∀ (threads n : Nat) (s : PoolState), PoolReaches (initPool threads n) s →
        0 ≤ s.permits ∧ s.permits ≤ (threads : Int)) := by
  constructor
  · intro fs p op outcome fsAfter
    constructor
    · unfold archive_repo
      split
      · rfl
      · cases outcome <;> rfl
    · unfold archive_gist
      split
      · rfl
      · cases outcome <;> rfl
  · intro threads n s h
    obtain ⟨h0, h1⟩ := pool_invariant threads n s h
    have h2 : (0 : Int) ≤ ((acquiredCount s.phases : Nat) : Int) := Int.natCast_nonneg _
    exact ⟨h0, by omega⟩

theorem c4_permit_balance_and_bounds_witness :
    0 ≤ (initPool 2 3).permits ∧ (initPool 2 3).permits ≤ ((2 : Nat) : Int) :=
  c4_permit_balance_and_bounds.2 2 3 (initPool 2 3) (PoolReaches.refl _)

/-- C5: initialize_project raises its configuration error exactly when
target lists and operation flags are inconsistent: the error is present
precisely when the truthiness of the target lists differs from the
truthiness of the operation flags, so in particular no error is raised
when at least one target list is nonempty and at least one flag is set,
and none when both are empty. -/
theorem c5_config_validation_characterization (users orgs gists : List String)
    (view clone pull : Bool) :
    (initialize_project_error users orgs gists view clone pull).isSome
      = ((!users.isEmpty || !orgs.isEmpty || !gists.isEmpty) != (view || clone || pull)) := by
  unfold initialize_project_error
  cases hu : users.isEmpty <;> cases ho : orgs.isEmpty <;> cases hg : gists.isEmpty <;>
    cases view <;> cases clone <;> cases pull <;> simp [hu, ho, hg]

/-- C6: the claim states that an inconsistent configuration aborts before
any filesystem activity.  In the source the directory bootstrap (lines
133-135) runs before the validation (lines 137-144): at the concrete input
below (absent root, users configured, no operation flag) initialize_project
raises the configuration error, yet the root directory has been created. -/
theorem c6_creates_directories_before_config_error :
    ((initialize_project [] ["archive"] ["alice"] [] [] false false false).2).isSome = true
    ∧ pathExists (initialize_project [] ["archive"] ["alice"] [] [] false false false).1
        ["archive"] = true
    ∧ pathExists ([] : FS) ["archive"] = false := by
  decide

/-- C6 (amended): when the configuration is inconsistent,
initialize_project raises the configuration error; the root directory was
left untouched when it already existed, and in any case the only paths
that can come into existence during the call are the root tree itself
(ancestors of the repos and gists subdirectories), so no archiving
touches the filesystem before the abort. -/
theorem c6_abort_filesystem_effect (fs : FS) (location : Path)
    (users orgs gists : List String) (view clone pull : Bool)
    (h : (initialize_project_error users orgs gists view clone pull).isSome = true) :
    ((initialize_project fs location users orgs gists view clone pull).2).isSome = true
    ∧ (pathExists fs location = true →
        (initialize_project fs location users orgs gists view clone pull).1 = fs)
    ∧ (∀ q : Path,
        pathExists (initialize_project fs location users orgs gists view clone pull).1 q
            = true →
          pathExists fs q = true ∨ q ∈ pathAncestors (location ++ ["repos"])
            ∨ q ∈ pathAncestors (location ++ ["gists"])) := by
  refine ⟨by simpa [initialize_project] using h, ?_, ?_⟩
  · intro hloc
    simp [initialize_project, hloc]
  · intro q hq
    by_cases hloc : pathExists fs location = true
    · simp [initialize_project, hloc] at hq
      exact Or.inl hq
    · simp [initialize_project, hloc] at hq
      rw [pathExists_iff] at hq
      rcases (mem_addMissing _ _ _).mp hq with h2 | h2
      · rcases (mem_addMissing _ _ _).mp h2 with h3 | h3
        · exact Or.inl ((pathExists_iff fs q).mpr h3)
        · exact Or.inr (Or.inl h3)
      · exact Or.inr (Or.inr h2)

theorem c6_abort_filesystem_effect_witness :
    ((initialize_project [] ["root"] ["alice"] [] [] false false false).2).isSome = true :=
  (c6_abort_filesystem_effect [] ["root"] ["alice"] [] [] false false false (by decide)).1

/-- C7: with an authenticated token the personal-context pass archives
exactly the descriptors whose lowercased owner login equals the stored
authenticated username (in particular self repos [alice/r1, orgx/r2]
under token alice reduce to [alice/r1]), while in any non-personal
context the owner-filter guard is never applied and every descriptor is
processed. -/
theorem c7_owner_filter_personal_only (authUsername : String) (repos : List Repo) :
    (processedRepos true authUsername PERSONAL_CONTEXT repos
        = repos.filter (fun r => lower r.owner.login == authUsername))
    ∧ (∀ (hasToken : Bool) (context : String), context ≠ PERSONAL_CONTEXT →
        processedRepos hasToken authUsername context repos = repos)
    ∧ processedRepos true "alice" PERSONAL_CONTEXT
        [⟨⟨"alice"⟩, "r1", "u1"⟩, ⟨⟨"orgx"⟩, "r2", "u2"⟩]
      = [⟨⟨"alice"⟩, "r1", "u1"⟩] := by
  refine ⟨?_, ?_, by decide⟩
  · apply List.filter_congr
    intro r hr
    simp [ownerGuardSkips, bne]
  · intro hasToken context hctx
    apply List.filter_eq_self.mpr
    intro r hr
    simp [ownerGuardSkips, hctx]

theorem c7_owner_filter_personal_only_witness :
    processedRepos false "alice" USER_CONTEXT [⟨⟨"orgx"⟩, "r2", "u2"⟩]
      = [⟨⟨"orgx"⟩, "r2", "u2"⟩] :=
  (c7_owner_filter_personal_only "alice" [⟨⟨"orgx"⟩, "r2", "u2"⟩]).2.1 false
    USER_CONTEXT (by decide)

/-- C8: in the event trace of iterate_repos_to_archive and
iterate_gists_to_archive, every spawned thread is joined (Thread.join
returns only once that thread has completed), and the return event is the
last event of the trace: the call returns only after a full-barrier join
of every thread it started, never while a task of the current batch is
still running. -/
theorem c8_full_barrier_join (hasToken : Bool) (authUsername : String) (context : String)
    (repos : List Repo) (gists : List Gist) :
    (∀ i : Nat, CoEvent.spawn i ∈ iterate_repos_trace hasToken authUsername context repos →
        CoEvent.join i ∈ iterate_repos_trace hasToken authUsername context repos)
    ∧ (iterate_repos_trace hasToken authUsername context repos).getLast? = some CoEvent.ret
    ∧ (∀ i : Nat, CoEvent.spawn i ∈ iterate_gists_trace gists →
        CoEvent.join i ∈ iterate_gists_trace gists)
    ∧ (iterate_gists_trace gists).getLast? = some CoEvent.ret := by
  refine ⟨?_, ?_, ?_, ?_⟩
  · intro i h
    simp [iterate_repos_trace] at h ⊢
    exact h
  · rw [iterate_repos_trace, List.getLast?_concat]
  · intro i h
    simp [iterate_gists_trace] at h ⊢
    exact h
  · rw [iterate_gists_trace, List.getLast?_concat]

theorem c8_full_barrier_join_witness :
    CoEvent.join 0 ∈ iterate_gists_trace [⟨"g1", "u1"⟩] :=
  (c8_full_barrier_join false "alice" USER_CONTEXT [] [⟨"g1", "u1"⟩]).2.2.1 0 (by decide)

/-- C9: the claim states that a repo target's local path is the root
joined with repos, the owner login and the repo name; but the source
lowercases the owner login (line 205 feeding line 217), so for the
mixed-case login Alice the path component is alice, not the login
itself. -/
theorem c9_mixed_case_owner_path :
    repo_local_path ["archive"] ⟨⟨"Alice"⟩, "r1", "u1"⟩
      ≠ ["archive", "repos", "Alice", "r1"] := by
  decide

/-- C9 (amended): every repo target's local path is the configured root
joined with repos, the lowercased owner login and the repo name; every
gist target's local path is the root joined with gists and the gist id;
and when the root is absent at startup, initialize_project creates the
root together with its repos and gists subdirectories. -/
theorem c9_local_path_layout (location : Path) (repo : Repo) (gist : Gist) (fs : FS)
    (users orgs gists : List String) (view clone pull : Bool)
    (hloc : location ≠ []) (habsent : pathExists fs location = false) :
    repo_local_path location repo
        = location ++ ["repos", lower repo.owner.login, repo.name]
    ∧ gist_local_path location gist = location ++ ["gists", gist.id]
    ∧ pathExists (initialize_project fs location users orgs gists view clone pull).1
        location = true
    ∧ pathExists (initialize_project fs location users orgs gists view clone pull).1
        (location ++ ["repos"]) = true
    ∧ pathExists (initialize_project fs location users orgs gists view clone pull).1
        (location ++ ["gists"]) = true := by
  have hfs1 : (initialize_project fs location users orgs gists view clone pull).1
      = mkdirs (mkdirs fs (location ++ ["repos"])) (location ++ ["gists"]) := by
    simp [initialize_project, habsent]
  refine ⟨rfl, rfl, ?_, ?_, ?_⟩
  · rw [hfs1, pathExists_iff, mkdirs, mem_addMissing]
    exact Or.inr (mem_pathAncestors_self_append location ["gists"] hloc)
  · rw [hfs1, pathExists_iff, mkdirs, mem_addMissing]
    refine Or.inl ?_
    rw [mkdirs, mem_addMissing]
    refine Or.inr ?_
    have := mem_pathAncestors_self_append (location ++ ["repos"]) [] (by simp)
    simpa using this
  · rw [hfs1, pathExists_iff, mkdirs, mem_addMissing]
    refine Or.inr ?_
    have := mem_pathAncestors_self_append (location ++ ["gists"]) [] (by simp)
    simpa using this

theorem c9_local_path_layout_witness :
    pathExists (initialize_project [] ["root"] ["alice"] [] [] false true false).1
      ["root", "repos"] = true :=
  (c9_local_path_layout ["root"] ⟨⟨"a"⟩, "r", "u"⟩ ⟨"g", "u"⟩ [] ["alice"] [] []
    false true false (by decide) (by decide)).2.2.2.1

/-- C10: all name matching is case-insensitive by lowercasing at the
boundary: a configured name list is lowercased before comma-splitting,
the authenticated login is stored lowercased, the owner-filter guard
compares the lowercased descriptor owner login, repo local paths use the
lowercased owner login, and concrete mixed-case configured names and
forge-reported logins therefore match their lowercase forms. -/
theorem c10_lowercase_boundary :
    (∀ s : String, s.data.isEmpty = false →
        parseNameList (some s) = split (lower s) ',')
    ∧ (∀ (token : Option String) (login : String), token.isSome = true →
        authenticated_username token login = some (lower login))
    ∧ (∀ (hasToken : Bool) (authUsername : String) (context : String) (repo : Repo),
        ownerGuardSkips hasToken authUsername context repo
          = (hasToken && (lower repo.owner.login != authUsername)
              && (context == PERSONAL_CONTEXT)))
    ∧ (∀ (location : Path) (repo : Repo),
        repo_local_path location repo
          = location ++ ["repos", lower repo.owner.login, repo.name])
    ∧ parseNameList (some "Alice,BOB") = ["alice", "bob"]
    ∧ authenticated_user_in_users "ALICE" ["alice"] = true
    ∧ ownerGuardSkips true "alice" PERSONAL_CONTEXT ⟨⟨"ALICE"⟩, "r", "u"⟩ = false
    ∧ repo_local_path ["root"] ⟨⟨"MixedCase"⟩, "r", "u"⟩
        = ["root", "repos", "mixedcase", "r"] := by
  refine ⟨?_, ?_, fun _ _ _ _ => rfl, fun _ _ => rfl, by decide, by decide, by decide,
    by decide⟩
  · intro s hs
    simp [parseNameList, hs]
  · intro token login htok
    simp [authenticated_username, htok]

theorem c10_lowercase_boundary_witness :
    parseNameList (some "Alice,BOB") = split (lower "Alice,BOB") ',' :=
  c10_lowercase_boundary.1 "Alice,BOB" (by decide)

end GithubArchive
